import Mathlib

/-!
Verification development for the articy-node inline-script parser
(`src/unnamed/part_000`, a peggy-generated PEG parser) and the
localization table (`src/src/localization.ts`).

The parser is embedded shallowly: the mutable parser variables
`peg$currPos`, `peg$maxFailPos`, `peg$maxFailExpected` become an explicit
state record that every rule function threads through.  `peg$silentFails`
is never incremented anywhere in the generated code, so every failure
point calls `peg$fail`; the embedding therefore records a failure at
every failure point, exactly as the source does.  JavaScript strings are
modelled as `List Char` with positions as `Nat`.  The external
`processEmbed` function (imported from `./inline_util`, which is not part
of the sources) is a parameter `pe` of the parse functions, mirroring its
role as an external collaborator whose return value becomes the embed's
contribution to the output string.
-/

namespace ArticyNode

/-- The `SequenceType` from `./inline_util`: only the four enum constructors
referenced by the grammar actions (`peg$c16`, `peg$c21`, `peg$c26`,
`peg$c31`) are needed. -/
inductive SequenceType where
  | Stopping
  | Shuffle
  | Cycle
  | OnlyOnce
deriving DecidableEq, Repr

/-- The `Expectation` (union of `ILiteralExpectation`, `IClassExpectation`,
`IAnyExpectation`, `IEndExpectation`, `IOtherExpectation`).  The class
parts in this grammar are always plain single-character strings, so
`IClassParts` is modelled as `List String`. -/
inductive Expectation where
  | literal (text : String) (ignoreCase : Bool)
  | classE (parts : List String) (inverted : Bool) (ignoreCase : Bool)
  | anyE
  | endE
  | other (description : String)
deriving DecidableEq, Repr

/-- The `IFilePosition`. -/
structure IFilePosition where
  offset : Nat
  line : Nat
  column : Nat
deriving DecidableEq, Repr

/-- The `IFileRange`; the source field `end` is a Lean keyword, renamed `stop`. -/
structure IFileRange where
  start : IFilePosition
  stop : IFilePosition
deriving DecidableEq, Repr

/-- The `Argument` records built by the actions `peg$c38` (inline
arguments: only `full` and `location`) and `peg$c42` (multi-line
arguments: `expr`/`value` present only when a condition was parsed). -/
structure Argument where
  expr : Option String
  value : Option String
  full : String
  location : IFileRange
deriving DecidableEq, Repr

/-- The value produced by `(Condition / Type)?` in `InlineEmbed` and
passed to `processEmbed`: either the object `{expr, text}` built by
`peg$c34` or one of the `{type: SequenceType.X}` objects. -/
inductive EmbedHeader where
  | cond (expr : String) (textv : String)
  | seq (type : SequenceType)
deriving DecidableEq, Repr

/-- The mutable parser variables of `peg$parse`:
`peg$currPos`, `peg$maxFailPos`, `peg$maxFailExpected`. -/
structure PState where
  pos : Nat
  maxFailPos : Nat
  maxFailExpected : List Expectation
deriving DecidableEq, Repr

/-- The `peg$fail`: ignore failures before the furthest failure position;
reset the expectation set when a new furthest position is reached;
otherwise push the expectation. -/
def pegFail (e : Expectation) (st : PState) : PState :=
  if st.pos < st.maxFailPos then st
  else if st.pos > st.maxFailPos then
    { st with maxFailPos := st.pos, maxFailExpected := [e] }
  else
    { st with maxFailExpected := st.maxFailExpected ++ [e] }

/-- The `peg$computePosDetails` without its memoization cache: walk the input
up to `pos`, starting at line 1 column 1, bumping the line on `\n`. -/
def pegComputePosDetails (input : List Char) (pos : Nat) : Nat × Nat :=
  (input.take pos).foldl
    (fun lc c => if c = '\n' then (lc.1 + 1, 1) else (lc.1, lc.2 + 1)) (1, 1)

/-- The `peg$computeLocation`. -/
def pegComputeLocation (input : List Char) (startPos endPos : Nat) : IFileRange :=
  let s := pegComputePosDetails input startPos
  let e := pegComputePosDetails input endPos
  { start := { offset := startPos, line := s.1, column := s.2 }
    stop := { offset := endPos, line := e.1, column := e.2 } }

/-- The `text()` = `input.substring(peg$savedPos, peg$currPos)`. -/
def pegText (input : List Char) (a b : Nat) : String :=
  String.mk ((input.drop a).take (b - a))

/-! The character-class constants of the grammar. -/

/-- The `peg$c6 = /^[ \t\n\r]/` (the `Whitespace` class). -/
def pegC6 (c : Char) : Bool := c == ' ' || c == '\t' || c == '\n' || c == '\r'

/-- The `peg$c35 = /^[^\n|:{}]/` (the `Expression` class). -/
def pegC35 (c : Char) : Bool :=
  !(c == '\n' || c == '|' || c == ':' || c == '\x7b' || c == '\x7d')

/-- The `peg$c46 = /^[^{}\-]/` (the `InlineMultilineText` class). -/
def pegC46 (c : Char) : Bool := !(c == '\x7b' || c == '\x7d' || c == '-')

/-- The `peg$c49 = /^[^{}|\r\n]/` (the `InlineText` class). -/
def pegC49 (c : Char) : Bool :=
  !(c == '\x7b' || c == '\x7d' || c == '|' || c == '\r' || c == '\n')

/-- The `peg$c51 = /^[^{}]/` (the top-level `Text` class). -/
def pegC51 (c : Char) : Bool := !(c == '\x7b' || c == '\x7d')

/-! The expectation constants of the grammar. -/

def expC2 : Expectation := .literal "\x7b" false
def expC4 : Expectation := .literal "\x7d" false
def expC7 : Expectation := .classE [" ", "\t", "\n", "\r"] false false
def expC10 : Expectation := .literal "\r" false
def expC12 : Expectation := .literal "\n" false
def expC15 : Expectation := .literal "stopping:" false
def expC18 : Expectation := .literal "~" false
def expC20 : Expectation := .literal "shuffle:" false
def expC23 : Expectation := .literal "&" false
def expC25 : Expectation := .literal "cycle:" false
def expC28 : Expectation := .literal "!" false
def expC30 : Expectation := .literal "once:" false
def expC33 : Expectation := .literal ":" false
def expC36 : Expectation := .classE ["\n", "|", ":", "\x7b", "\x7d"] true false
def expC40 : Expectation := .literal "|" false
def expC44 : Expectation := .literal "-" false
def expC47 : Expectation := .classE ["\x7b", "\x7d", "-"] true false
def expC50 : Expectation := .classE ["\x7b", "\x7d", "|", "\r", "\n"] true false
def expC52 : Expectation := .classE ["\x7b", "\x7d"] true false

/-- The recursion of the character-consuming loop below, walking the
characters from the current position. -/
def pegCharLoopGo (t : Char → Bool) (e : Expectation) :
    List Char → PState → List Char × PState
  | [], st => ([], pegFail e st)
  | c :: rest, st =>
    if t c then
      let r := pegCharLoopGo t e rest { st with pos := st.pos + 1 }
      (c :: r.1, r.2)
    else ([], pegFail e st)

/-- The character-consuming loop that every `class+` / `class*` rule of
the generated parser contains: consume characters from the current
position while the class test holds, then record the failed test of the
stopping character via `peg$fail` (the generated loop performs exactly
one failing test at the end, which is also how it fails on an empty
match). -/
def pegCharLoop (input : List Char) (t : Char → Bool) (e : Expectation)
    (st : PState) : List Char × PState :=
  pegCharLoopGo t e (input.drop st.pos) st

/-- Matching a single-character literal (`input.charCodeAt(pos) === c`). -/
def pegLitChar (input : List Char) (c : Char) (e : Expectation)
    (st : PState) : Option Char × PState :=
  if input.get? st.pos = some c then (some c, { st with pos := st.pos + 1 })
  else (none, pegFail e st)

/-- Matching a multi-character literal (`input.substr(pos, n) === lit`). -/
def pegLitStr (input : List Char) (lit : List Char) (e : Expectation)
    (st : PState) : Option (List Char) × PState :=
  if (input.drop st.pos).take lit.length = lit then
    (some lit, { st with pos := st.pos + lit.length })
  else (none, pegFail e st)

/-- The `peg$parseWhitespace`: `[ \t\n\r]* { return undefined; }` — always
succeeds. -/
def pegParseWhitespace (input : List Char) (st : PState) : Option Unit × PState :=
  let r := pegCharLoop input pegC6 expC7 st
  (some (), r.2)

/-- The `peg$parseNewline`: `'\r'? '\n' { return undefined; }`. -/
def pegParseNewline (input : List Char) (st : PState) : Option Unit × PState :=
  let s0 := st.pos
  let r1 := pegLitChar input '\r' expC10 st
  let r2 := pegLitChar input '\n' expC12 r1.2
  match r2.1 with
  | some _ => (some (), r2.2)
  | none => (none, { r2.2 with pos := s0 })

/-- The `peg$parseStopping_Id`: `'stopping:' { return {type: SequenceType.Stopping}; }`. -/
def pegParseStopping_Id (input : List Char) (st : PState) :
    Option SequenceType × PState :=
  let r := pegLitStr input "stopping:".data expC15 st
  match r.1 with
  | some _ => (some .Stopping, r.2)
  | none => (none, r.2)

/-- The `peg$parseShuffle_Id`: `('~' / 'shuffle:') { return {type: SequenceType.Shuffle}; }`. -/
def pegParseShuffle_Id (input : List Char) (st : PState) :
    Option SequenceType × PState :=
  let r1 := pegLitChar input '~' expC18 st
  match r1.1 with
  | some _ => (some .Shuffle, r1.2)
  | none =>
    let r2 := pegLitStr input "shuffle:".data expC20 r1.2
    match r2.1 with
    | some _ => (some .Shuffle, r2.2)
    | none => (none, r2.2)

/-- The `peg$parseCycle_Id`: `('&' / 'cycle:') { return {type: SequenceType.Cycle}; }`. -/
def pegParseCycle_Id (input : List Char) (st : PState) :
    Option SequenceType × PState :=
  let r1 := pegLitChar input '&' expC23 st
  match r1.1 with
  | some _ => (some .Cycle, r1.2)
  | none =>
    let r2 := pegLitStr input "cycle:".data expC25 r1.2
    match r2.1 with
    | some _ => (some .Cycle, r2.2)
    | none => (none, r2.2)

/-- The `peg$parseOnce_Only_Id`: `('!' / 'once:') { return {type: SequenceType.OnlyOnce}; }`. -/
def pegParseOnce_Only_Id (input : List Char) (st : PState) :
    Option SequenceType × PState :=
  let r1 := pegLitChar input '!' expC28 st
  match r1.1 with
  | some _ => (some .OnlyOnce, r1.2)
  | none =>
    let r2 := pegLitStr input "once:".data expC30 r1.2
    match r2.1 with
    | some _ => (some .OnlyOnce, r2.2)
    | none => (none, r2.2)

/-- The `peg$parseType = Stopping_Id / Shuffle_Id / Cycle_Id / Once_Only_Id`. -/
def pegParseType (input : List Char) (st : PState) :
    Option SequenceType × PState :=
  let r1 := pegParseStopping_Id input st
  match r1.1 with
  | some t => (some t, r1.2)
  | none =>
    let r2 := pegParseShuffle_Id input r1.2
    match r2.1 with
    | some t => (some t, r2.2)
    | none =>
      let r3 := pegParseCycle_Id input r2.2
      match r3.1 with
      | some t => (some t, r3.2)
      | none =>
        let r4 := pegParseOnce_Only_Id input r3.2
        match r4.1 with
        | some t => (some t, r4.2)
        | none => (none, r4.2)

/-- The `peg$parseExpression`: `[^\n|:{}]+ { return text(); }`. -/
def pegParseExpression (input : List Char) (st : PState) :
    Option String × PState :=
  let r := pegCharLoop input pegC35 expC36 st
  if r.1.isEmpty then (none, r.2) else (some (String.mk r.1), r.2)

/-- The `peg$parseCondition`: `expr:Expression ':' Whitespace
{ return {"expr": expr, "text": text()}; }` — the result carries
both the expression and the full matched text (`peg$c34`). -/
def pegParseCondition (input : List Char) (st : PState) :
    Option (String × String) × PState :=
  let s0 := st.pos
  let r1 := pegParseExpression input st
  match r1.1 with
  | none => (none, { r1.2 with pos := s0 })
  | some expr =>
    let r2 := pegLitChar input ':' expC33 r1.2
    match r2.1 with
    | none => (none, { r2.2 with pos := s0 })
    | some _ =>
      let r3 := pegParseWhitespace input r2.2
      match r3.1 with
      | none => (none, { r3.2 with pos := s0 })
      | some _ => (some (expr, pegText input s0 r3.2.pos), r3.2)

/-- ECMAScript `String.prototype.trim` whitespace: WhiteSpace and
LineTerminator code points. -/
def isJsWhitespace (c : Char) : Bool :=
  c == ' ' || c == '\t' || c == '\n' || c == '\r' || c == '\x0b' ||
  c == '\x0c' || c == '\u00A0' || c == '\u1680' ||
  (0x2000 ≤ c.toNat && c.toNat ≤ 0x200A) ||
  c == '\u2028' || c == '\u2029' || c == '\u202F' || c == '\u205F' ||
  c == '\u3000' || c == '\uFEFF'

/-- JavaScript `s.trim()`. -/
def jsTrim (s : String) : String :=
  String.mk (((s.data.dropWhile isJsWhitespace).reverse.dropWhile
    isJsWhitespace).reverse)

/-- The `peg$parseText`: `[^{}]+ { return text(); }`. -/
def pegParseText (input : List Char) (st : PState) : Option String × PState :=
  let r := pegCharLoop input pegC51 expC52 st
  if r.1.isEmpty then (none, r.2) else (some (String.mk r.1), r.2)

/-- The `peg$parseInlineText`: `[^{}|\r\n]+ { return text(); }`. -/
def pegParseInlineText (input : List Char) (st : PState) :
    Option String × PState :=
  let r := pegCharLoop input pegC49 expC50 st
  if r.1.isEmpty then (none, r.2) else (some (String.mk r.1), r.2)

/-- The `peg$parseInlineMultilineText`: `[^{}-]+ { return text().trim(); }`
(action `peg$c48` — the only text rule that trims). -/
def pegParseInlineMultilineText (input : List Char) (st : PState) :
    Option String × PState :=
  let r := pegCharLoop input pegC46 expC47 st
  if r.1.isEmpty then (none, r.2) else (some (jsTrim (String.mk r.1)), r.2)

/-- The type of the external `processEmbed` collaborator from
`./inline_util` (not among the sources): it receives the optional embed
header, the argument list and the multi-line flag, and returns the text
the embed contributes to the output.  The real function also receives the
parse options and the `expected` error callback; the embedding covers the
non-throwing executions, which is all the claims below exercise. -/
abbrev ProcessEmbed := Option EmbedHeader → List Argument → Bool → String

/-- The names of the mutually recursive rule functions of the generated
parser (`peg$parseSource` … `peg$parseMultiLineArguments`); the
non-recursive rules stay separate functions above. -/
inductive Rule where
  | source
  | sourceLoop
  | inlineSource
  | inlineAlt
  | inlineLoop
  | imlSource
  | imlAlt
  | imlLoop
  | embed
  | inlineEmbed
  | mutliLineEmbed
  | argument
  | argumentsLoop
  | arguments
  | multilineArgument
  | mlArgItem
  | mlArgsLoop
  | mlArguments
deriving DecidableEq, Repr

/-- The value each rule produces. -/
def RTy : Rule → Type
  | .source => String
  | .sourceLoop => List String
  | .inlineSource => Option String
  | .inlineAlt => Option String
  | .inlineLoop => List String
  | .imlSource => Option String
  | .imlAlt => Option String
  | .imlLoop => List String
  | .embed => Option String
  | .inlineEmbed => Option String
  | .mutliLineEmbed => Option String
  | .argument => Option Argument
  | .argumentsLoop => List Argument
  | .arguments => Option (List Argument)
  | .multilineArgument => Option Argument
  | .mlArgItem => Option Argument
  | .mlArgsLoop => List Argument
  | .mlArguments => Option (List Argument)

/-- The mutually recursive rule functions of the generated parser,
combined into one function over `Rule` so that the recursion is
structural in a single fuel argument (the source recursion is bounded
only by the JavaScript call stack; the fuel makes the embedding total
without changing any terminating run — `none` is fuel exhaustion).  Each
arm is one generated `peg$parse…` function; the wrapper definitions
below restore the source names.

- `source`: `(Text / Embed)* { return contents.join(''); }` — the star
  repetition never fails.
- `sourceLoop`: the `while` loop of `peg$parseSource`, trying `Text`
  then `Embed` until both fail.
- `inlineSource`: `(InlineText / Embed)+ { return contents.join(''); }`,
  failing when the first alternative fails; `inlineAlt` is one
  alternative step and `inlineLoop` the `while` loop.
- `imlSource` / `imlAlt` / `imlLoop`: the same for
  `peg$parseInlineMultilineSource`.
- `embed`: `InlineEmbed / MutliLineEmbed`.
- `inlineEmbed`: `'{' type:(Condition / Type)? args:Arguments '}'` with
  action `peg$c5` (`processEmbed(type, args, false, …)`); `Condition` is
  tried before `Type`, and when both fail the optional yields `null`.
- `mutliLineEmbed` (the source's spelling):
  `'{' type:Type? Newline args:MultiLineArguments '}'` with action
  `peg$c13` (`processEmbed(type, args, true, …)`).
- `argument`: `arg:InlineSource?` with action `peg$c38`
  (`{ full: arg ?? '', location: location() }`) — always succeeds.
- `argumentsLoop`: the `('|' Argument)*` loop, restoring the position at
  the start of a failed iteration.
- `arguments`: `first:Argument rest:('|' Argument)*` with action
  `peg$c41` (push `first`, then each `rest[i][1]`).
- `multilineArgument`: `cond:Condition? value:InlineMultilineSource?`
  with action `peg$c42`.
- `mlArgItem`: one `('-' Whitespace MultilineArgument Whitespace)`
  group, restoring the position on failure; `mlArgsLoop` collects
  further groups.
- `mlArguments`: `Whitespace args:(… group …)+` with action `peg$c45`
  (collect each group's `MultilineArgument`). -/
def pegRule (pe : ProcessEmbed) (input : List Char) :
    Nat → (r : Rule) → PState → Option (RTy r × PState)
  | 0, _, _ => none
  | fuel + 1, .source, st => do
    let (parts, st1) ← pegRule pe input fuel .sourceLoop st
    some (String.join parts, st1)
  | fuel + 1, .sourceLoop, st =>
    let r := pegParseText input st
    match r.1 with
    | some s => do
      let (rest, st2) ← pegRule pe input fuel .sourceLoop r.2
      some (s :: rest, st2)
    | none => do
      let (r2, st2) ← pegRule pe input fuel .embed r.2
      match r2 with
      | some s => do
        let (rest, st3) ← pegRule pe input fuel .sourceLoop st2
        some (s :: rest, st3)
      | none => some ([], st2)
  | fuel + 1, .inlineAlt, st =>
    let r := pegParseInlineText input st
    match r.1 with
    | some s => some (some s, r.2)
    | none => pegRule pe input fuel .embed r.2
  | fuel + 1, .inlineLoop, st => do
    let (r, st1) ← pegRule pe input fuel .inlineAlt st
    match r with
    | some s => do
      let (rest, st2) ← pegRule pe input fuel .inlineLoop st1
      some (s :: rest, st2)
    | none => some ([], st1)
  | fuel + 1, .inlineSource, st => do
    let (r, st1) ← pegRule pe input fuel .inlineAlt st
    match r with
    | none => some (none, st1)
    | some s => do
      let (rest, st2) ← pegRule pe input fuel .inlineLoop st1
      some (some (String.join (s :: rest)), st2)
  | fuel + 1, .imlAlt, st =>
    let r := pegParseInlineMultilineText input st
    match r.1 with
    | some s => some (some s, r.2)
    | none => pegRule pe input fuel .embed r.2
  | fuel + 1, .imlLoop, st => do
    let (r, st1) ← pegRule pe input fuel .imlAlt st
    match r with
    | some s => do
      let (rest, st2) ← pegRule pe input fuel .imlLoop st1
      some (s :: rest, st2)
    | none => some ([], st1)
  | fuel + 1, .imlSource, st => do
    let (r, st1) ← pegRule pe input fuel .imlAlt st
    match r with
    | none => some (none, st1)
    | some s => do
      let (rest, st2) ← pegRule pe input fuel .imlLoop st1
      some (some (String.join (s :: rest)), st2)
  | fuel + 1, .embed, st => do
    let (r, st1) ← pegRule pe input fuel .inlineEmbed st
    match r with
    | some s => some (some s, st1)
    | none => pegRule pe input fuel .mutliLineEmbed st1
  | fuel + 1, .inlineEmbed, st =>
    let s0 := st.pos
    let rb := pegLitChar input '\x7b' expC2 st
    match rb.1 with
    | none => some (none, { rb.2 with pos := s0 })
    | some _ =>
      let rc := pegParseCondition input rb.2
      let (ty, st2) : Option EmbedHeader × PState :=
        match rc.1 with
        | some (e, t) => (some (.cond e t), rc.2)
        | none =>
          let rt := pegParseType input rc.2
          match rt.1 with
          | some sq => (some (.seq sq), rt.2)
          | none => (none, rt.2)
      do
        let (args, st3) ← pegRule pe input fuel .arguments st2
        match args with
        | none => some (none, { st3 with pos := s0 })
        | some argl =>
          let rcb := pegLitChar input '\x7d' expC4 st3
          match rcb.1 with
          | none => some (none, { rcb.2 with pos := s0 })
          | some _ => some (some (pe ty argl false), rcb.2)
  | fuel + 1, .mutliLineEmbed, st =>
    let s0 := st.pos
    let rb := pegLitChar input '\x7b' expC2 st
    match rb.1 with
    | none => some (none, { rb.2 with pos := s0 })
    | some _ =>
      let rt := pegParseType input rb.2
      let (ty, st2) : Option EmbedHeader × PState :=
        match rt.1 with
        | some sq => (some (.seq sq), rt.2)
        | none => (none, rt.2)
      let rn := pegParseNewline input st2
      match rn.1 with
      | none => some (none, { rn.2 with pos := s0 })
      | some _ => do
        let (args, st4) ← pegRule pe input fuel .mlArguments rn.2
        match args with
        | none => some (none, { st4 with pos := s0 })
        | some argl =>
          let rcb := pegLitChar input '\x7d' expC4 st4
          match rcb.1 with
          | none => some (none, { rcb.2 with pos := s0 })
          | some _ => some (some (pe ty argl true), rcb.2)
  | fuel + 1, .argument, st => do
    let s0 := st.pos
    let (r, st1) ← pegRule pe input fuel .inlineSource st
    let full := match r with | some s => s | none => ""
    some (some { expr := none, value := none, full := full,
                 location := pegComputeLocation input s0 st1.pos }, st1)
  | fuel + 1, .argumentsLoop, st =>
    let s3 := st.pos
    let rp := pegLitChar input '|' expC40 st
    match rp.1 with
    | none => some ([], { rp.2 with pos := s3 })
    | some _ => do
      let (a, st2) ← pegRule pe input fuel .argument rp.2
      match a with
      | none => some ([], { st2 with pos := s3 })
      | some arg => do
        let (rest, st3) ← pegRule pe input fuel .argumentsLoop st2
        some (arg :: rest, st3)
  | fuel + 1, .arguments, st => do
    let (first, st1) ← pegRule pe input fuel .argument st
    match first with
    | none => some (none, st1)
    | some a => do
      let (rest, st2) ← pegRule pe input fuel .argumentsLoop st1
      some (some (a :: rest), st2)
  | fuel + 1, .multilineArgument, st => do
    let s0 := st.pos
    let rc := pegParseCondition input st
    let (v, st2) ← pegRule pe input fuel .imlSource rc.2
    let value := match v with | some s => some s | none => none
    match rc.1 with
    | some (e, t) =>
      some (some { expr := some e, value := some (value.getD ""),
                   full := t ++ value.getD "",
                   location := pegComputeLocation input s0 st2.pos }, st2)
    | none =>
      some (some { expr := none, value := none, full := value.getD "",
                   location := pegComputeLocation input s0 st2.pos }, st2)
  | fuel + 1, .mlArgItem, st =>
    let s3 := st.pos
    let rd := pegLitChar input '-' expC44 st
    match rd.1 with
    | none => some (none, { rd.2 with pos := s3 })
    | some _ =>
      let rw := pegParseWhitespace input rd.2
      do
        let (m, st3) ← pegRule pe input fuel .multilineArgument rw.2
        match m with
        | none => some (none, { st3 with pos := s3 })
        | some a =>
          let rw2 := pegParseWhitespace input st3
          some (some a, rw2.2)
  | fuel + 1, .mlArgsLoop, st => do
    let (r, st1) ← pegRule pe input fuel .mlArgItem st
    match r with
    | none => some ([], st1)
    | some a => do
      let (rest, st2) ← pegRule pe input fuel .mlArgsLoop st1
      some (a :: rest, st2)
  | fuel + 1, .mlArguments, st =>
    let s0 := st.pos
    let rw := pegParseWhitespace input st
    do
      let (first, st2) ← pegRule pe input fuel .mlArgItem rw.2
      match first with
      | none => some (none, { st2 with pos := s0 })
      | some a => do
        let (rest, st3) ← pegRule pe input fuel .mlArgsLoop st2
        some (some (a :: rest), st3)

/-- The `peg$parseSource`. -/
def pegParseSource (pe : ProcessEmbed) (input : List Char) (fuel : Nat)
    (st : PState) : Option (String × PState) :=
  pegRule pe input fuel .source st

/-- The `while` loop of `peg$parseSource`. -/
def pegSourceLoop (pe : ProcessEmbed) (input : List Char) (fuel : Nat)
    (st : PState) : Option (List String × PState) :=
  pegRule pe input fuel .sourceLoop st

/-- The `peg$parseInlineSource`. -/
def pegParseInlineSource (pe : ProcessEmbed) (input : List Char) (fuel : Nat)
    (st : PState) : Option (Option String × PState) :=
  pegRule pe input fuel .inlineSource st

/-- One `(InlineText / Embed)` alternative of `peg$parseInlineSource`. -/
def pegInlineAlt (pe : ProcessEmbed) (input : List Char) (fuel : Nat)
    (st : PState) : Option (Option String × PState) :=
  pegRule pe input fuel .inlineAlt st

/-- The `while` loop of `peg$parseInlineSource`. -/
def pegInlineSourceLoop (pe : ProcessEmbed) (input : List Char) (fuel : Nat)
    (st : PState) : Option (List String × PState) :=
  pegRule pe input fuel .inlineLoop st

/-- The `peg$parseInlineMultilineSource`. -/
def pegParseInlineMultilineSource (pe : ProcessEmbed) (input : List Char)
    (fuel : Nat) (st : PState) : Option (Option String × PState) :=
  pegRule pe input fuel .imlSource st

/-- The `peg$parseEmbed = InlineEmbed / MutliLineEmbed`. -/
def pegParseEmbed (pe : ProcessEmbed) (input : List Char) (fuel : Nat)
    (st : PState) : Option (Option String × PState) :=
  pegRule pe input fuel .embed st

/-- The `peg$parseInlineEmbed`. -/
def pegParseInlineEmbed (pe : ProcessEmbed) (input : List Char) (fuel : Nat)
    (st : PState) : Option (Option String × PState) :=
  pegRule pe input fuel .inlineEmbed st

/-- The `peg$parseMutliLineEmbed` (the source's spelling). -/
def pegParseMutliLineEmbed (pe : ProcessEmbed) (input : List Char) (fuel : Nat)
    (st : PState) : Option (Option String × PState) :=
  pegRule pe input fuel .mutliLineEmbed st

/-- The `peg$parseArgument`. -/
def pegParseArgument (pe : ProcessEmbed) (input : List Char) (fuel : Nat)
    (st : PState) : Option (Option Argument × PState) :=
  pegRule pe input fuel .argument st

/-- The `('|' Argument)*` loop of `peg$parseArguments`. -/
def pegArgumentsLoop (pe : ProcessEmbed) (input : List Char) (fuel : Nat)
    (st : PState) : Option (List Argument × PState) :=
  pegRule pe input fuel .argumentsLoop st

/-- The `peg$parseArguments`. -/
def pegParseArguments (pe : ProcessEmbed) (input : List Char) (fuel : Nat)
    (st : PState) : Option (Option (List Argument) × PState) :=
  pegRule pe input fuel .arguments st

/-- The `peg$parseMultilineArgument`. -/
def pegParseMultilineArgument (pe : ProcessEmbed) (input : List Char)
    (fuel : Nat) (st : PState) : Option (Option Argument × PState) :=
  pegRule pe input fuel .multilineArgument st

/-- The `peg$parseMultiLineArguments`. -/
def pegParseMultiLineArguments (pe : ProcessEmbed) (input : List Char)
    (fuel : Nat) (st : PState) : Option (Option (List Argument) × PState) :=
  pegRule pe input fuel .mlArguments st

/-- The structured parse error built by `peg$buildStructuredError` at the
end of `peg$parse` (the rendered message string is not modelled). -/
structure StructuredError where
  expected : List Expectation
  found : Option String
  location : IFileRange
deriving DecidableEq, Repr

deriving instance DecidableEq for Except

/-- The entry fuel used by the embedding: ample for every run the
development evaluates (the generated parser has no fuel; see
`pegParseSource`). -/
def pegFuel (input : List Char) : Nat := 8 * input.length + 16

/-- The tail of `peg$parse`: run the start rule `Source`; succeed when
all input is consumed; otherwise record an end-of-input expectation when
the parse stopped early with a result, and build the structured error
from the furthest-failure data. -/
def pegParseRun (pe : ProcessEmbed) (input : List Char) :
    Option (Except StructuredError String) := do
  let (res, st) ← pegParseSource pe input (pegFuel input) ⟨0, 0, []⟩
  if st.pos = input.length then
    some (Except.ok res)
  else
    let st1 := if st.pos < input.length then pegFail .endE st else st
    let found := match input.get? st1.maxFailPos with
      | some c => some (String.mk [c])
      | none => none
    let loc :=
      if st1.maxFailPos < input.length then
        pegComputeLocation input st1.maxFailPos (st1.maxFailPos + 1)
      else
        pegComputeLocation input st1.maxFailPos st1.maxFailPos
    some (Except.error ⟨st1.maxFailExpected, found, loc⟩)


/-- A `processEmbed` instance that records which header the grammar
delivered: the captured guard expression for a `Condition` header, the
sequence type for a `Type` header. -/
def peProbe : ProcessEmbed := fun h _ _ =>
  match h with
  | none => "NONE"
  | some (.cond e _) => "COND(" ++ e ++ ")"
  | some (.seq .Stopping) => "SEQ(Stopping)"
  | some (.seq .Shuffle) => "SEQ(Shuffle)"
  | some (.seq .Cycle) => "SEQ(Cycle)"
  | some (.seq .OnlyOnce) => "SEQ(OnlyOnce)"

/-- A `processEmbed` instance with a constant result. -/
def peConst : ProcessEmbed := fun _ _ _ => "E"

/-- Directives nested to depth `n`: `nestBraces 2 = "{{A}}".data`. -/
def nestBraces : Nat → List Char
  | 0 => ['A']
  | n + 1 => '\x7b' :: (nestBraces n ++ ['\x7d'])

/-! ## The selection engine, modelled from the spec

The selection engine (`processEmbed` and its helpers in
`./inline_util`) is not among the sources; the following definitions are
modelled from the specification, section 4.3. -/

/-- Modelled from the spec: the per-identity `SequenceState` record of
the Sequence State Store — `counter: integer ≥ 0`; for Shuffle only,
`order: sequence of branch-index` and `cursor: integer`
(`inline_util` is missing from the sources). -/
structure SequenceState where
  counter : Nat
  order : List Nat
  cursor : Nat
deriving DecidableEq, Repr

/-- Modelled from the spec: the eligible index set — the indices of the
branches whose guard (if any) evaluated true this round; a branch with
no guard counts as eligible. -/
def eligibleIdxList (count : Nat) (guards : List Bool) : List Nat :=
  (List.range count).filter (fun i => guards.getD i true)

/-- Modelled from the spec: one evaluation round of a List directive
(section 4.3; the selection engine in `./inline_util` is missing from
the sources).  `branches` is the authored branch list in order,
`guards` the per-branch guard outcomes, `genOrder` the caller-injected
random source producing a fresh permutation of the eligible index set
(its second parameter is the just-emitted entry, which it must avoid
placing first when more than one branch is eligible), `st` the persisted
state.  When the eligible set is empty the round outputs the empty
string and leaves the state untouched; otherwise Stopping clamps the
counter, Cycle wraps it, OnceOnly goes terminal, and Shuffle walks its
persisted `order`, regenerating it when the cursor runs off the end. -/
def listRound (t : SequenceType) (branches : List String) (guards : List Bool)
    (genOrder : List Nat → Option Nat → List Nat) (st : SequenceState) :
    String × SequenceState :=
  let eligIdx := eligibleIdxList branches.length guards
  let eligible := eligIdx.filterMap (fun i => branches.get? i)
  if eligible.isEmpty then ("", st)
  else
    match t with
    | .Stopping =>
      (eligible.getD (min st.counter (eligible.length - 1)) "",
        { st with counter := st.counter + 1 })
    | .Cycle =>
      (eligible.getD (st.counter % eligible.length) "",
        { st with counter := st.counter + 1 })
    | .OnlyOnce =>
      if st.counter < eligible.length then
        (eligible.getD st.counter "", { st with counter := st.counter + 1 })
      else ("", st)
    | .Shuffle =>
      if st.cursor < st.order.length then
        (branches.getD (st.order.getD st.cursor 0) "",
          { st with cursor := st.cursor + 1 })
      else
        let fresh := genOrder eligIdx st.order.getLast?
        (branches.getD (fresh.getD 0 0) "",
          { st with order := fresh, cursor := 1 })

/-! ## The localization table (`src/src/localization.ts`)

JavaScript `Map`s are modelled as insertion-ordered association lists:
`mapSet` replaces the first binding of an existing key in place and
appends a new key at the end, `mapGet` reads the first binding — the
observable behavior of `Map.prototype.set` / `Map.prototype.get`. -/

def mapGet {α : Type} : List (String × α) → String → Option α
  | [], _ => none
  | p :: rest, k => if p.1 == k then some p.2 else mapGet rest k

def mapSet {α : Type} : List (String × α) → String → α → List (String × α)
  | [], k, v => [(k, v)]
  | p :: rest, k, v =>
    if p.1 == k then (k, v) :: rest else p :: mapSet rest k v

/-- The `Localization` class fields: `languages` (name → id → string)
and `activeLanguage`. -/
structure Localization where
  languages : List (String × List (String × String))
  activeLanguage : Option String
deriving DecidableEq, Repr

/-- The language map built at the start of `Localization.load`:
`for (const key in data) map.set(key, data[key])`. -/
def buildLangMap (data : List (String × String)) : List (String × String) :=
  data.foldl (fun m kv => mapSet m kv.1 kv.2) []

/-- The `Localization.load`: build the language map, save it under
`language`, and set the active language only when none is set. -/
def Localization.load (l : Localization) (language : String)
    (data : List (String × String)) : Localization :=
  { languages := mapSet l.languages language (buildLangMap data)
    activeLanguage :=
      match l.activeLanguage with
      | none => some language
      | some a => some a }

/-- The `Localization.get`: `const lang = language ?? this.activeLanguage;
if (!lang) return undefined; return this.languages.get(lang)?.get(id);`.
Note that `!lang` is a JavaScript falsiness test: it is true both for
`undefined` and for the empty string. -/
def Localization.get (l : Localization) (id : String)
    (language : Option String) : Option String :=
  let lang := match language with
    | some s => some s
    | none => l.activeLanguage
  match lang with
  | none => none
  | some s =>
    if s = "" then none
    else match mapGet l.languages s with
      | none => none
      | some table => mapGet table id

/-- The language that `Localization.get` selects before the falsiness
test: the explicit argument when given, the active language otherwise
(`language ?? this.activeLanguage`). -/
def effectiveLanguage (l : Localization) (language : Option String) :
    Option String :=
  match language with
  | some s => some s
  | none => l.activeLanguage


/-! ## Helper lemmas -/

/-! Equations folding `pegRule` applications back into the named rule
wrappers. -/

theorem pegParseSource_fold (pe : ProcessEmbed) (input : List Char)
    (fuel : Nat) (st : PState) :
    pegRule pe input fuel .source st = pegParseSource pe input fuel st := rfl

theorem pegSourceLoop_fold (pe : ProcessEmbed) (input : List Char)
    (fuel : Nat) (st : PState) :
    pegRule pe input fuel .sourceLoop st = pegSourceLoop pe input fuel st := rfl

theorem pegParseInlineSource_fold (pe : ProcessEmbed) (input : List Char)
    (fuel : Nat) (st : PState) :
    pegRule pe input fuel .inlineSource st =
      pegParseInlineSource pe input fuel st := rfl

theorem pegInlineAlt_fold (pe : ProcessEmbed) (input : List Char)
    (fuel : Nat) (st : PState) :
    pegRule pe input fuel .inlineAlt st = pegInlineAlt pe input fuel st := rfl

theorem pegInlineSourceLoop_fold (pe : ProcessEmbed) (input : List Char)
    (fuel : Nat) (st : PState) :
    pegRule pe input fuel .inlineLoop st =
      pegInlineSourceLoop pe input fuel st := rfl

theorem pegParseInlineMultilineSource_fold (pe : ProcessEmbed)
    (input : List Char) (fuel : Nat) (st : PState) :
    pegRule pe input fuel .imlSource st =
      pegParseInlineMultilineSource pe input fuel st := rfl

theorem pegParseEmbed_fold (pe : ProcessEmbed) (input : List Char)
    (fuel : Nat) (st : PState) :
    pegRule pe input fuel .embed st = pegParseEmbed pe input fuel st := rfl

theorem pegParseInlineEmbed_fold (pe : ProcessEmbed) (input : List Char)
    (fuel : Nat) (st : PState) :
    pegRule pe input fuel .inlineEmbed st =
      pegParseInlineEmbed pe input fuel st := rfl

theorem pegParseMutliLineEmbed_fold (pe : ProcessEmbed) (input : List Char)
    (fuel : Nat) (st : PState) :
    pegRule pe input fuel .mutliLineEmbed st =
      pegParseMutliLineEmbed pe input fuel st := rfl

theorem pegParseArgument_fold (pe : ProcessEmbed) (input : List Char)
    (fuel : Nat) (st : PState) :
    pegRule pe input fuel .argument st = pegParseArgument pe input fuel st := rfl

theorem pegArgumentsLoop_fold (pe : ProcessEmbed) (input : List Char)
    (fuel : Nat) (st : PState) :
    pegRule pe input fuel .argumentsLoop st =
      pegArgumentsLoop pe input fuel st := rfl

theorem pegParseArguments_fold (pe : ProcessEmbed) (input : List Char)
    (fuel : Nat) (st : PState) :
    pegRule pe input fuel .arguments st =
      pegParseArguments pe input fuel st := rfl

theorem pegParseMultilineArgument_fold (pe : ProcessEmbed) (input : List Char)
    (fuel : Nat) (st : PState) :
    pegRule pe input fuel .multilineArgument st =
      pegParseMultilineArgument pe input fuel st := rfl

theorem pegParseMultiLineArguments_fold (pe : ProcessEmbed) (input : List Char)
    (fuel : Nat) (st : PState) :
    pegRule pe input fuel .mlArguments st =
      pegParseMultiLineArguments pe input fuel st := rfl

theorem pegFail_pos (e : Expectation) (st : PState) :
    (pegFail e st).pos = st.pos := by
  unfold pegFail
  split
  · rfl
  · split <;> rfl

theorem setPos_self (st : PState) (p : Nat) (h : st.pos = p) :
    { st with pos := p } = st := by
  cases st
  cases h
  rfl

theorem drop_cons_of_get? :
    ∀ (input : List Char) (p : Nat) (c : Char), input.get? p = some c →
      input.drop p = c :: input.drop (p + 1)
  | [], p, c, h => by simp at h
  | x :: xs, 0, c, h => by
    simp only [List.get?] at h
    injection h with h
    simp [h]
  | x :: xs, p + 1, c, h => by
    simp only [List.get?] at h
    simpa using drop_cons_of_get? xs p c h

theorem drop_nil_of_get?_none {input : List Char} {p : Nat}
    (h : input.get? p = none) : input.drop p = [] := by
  rw [List.get?_eq_none] at h
  exact List.drop_eq_nil_of_le h

theorem pegCharLoopGo_eq (t : Char → Bool) (e : Expectation)
    (rem : List Char) :
    ∀ st : PState, pegCharLoopGo t e rem st =
      (rem.takeWhile t,
        pegFail e { st with pos := st.pos + (rem.takeWhile t).length }) := by
  induction rem with
  | nil =>
    intro st
    simp [pegCharLoopGo]
  | cons c rest ih =>
    intro st
    unfold pegCharLoopGo
    by_cases htc : t c
    · simp only [htc, if_pos]
      rw [ih]
      simp only [List.takeWhile_cons, htc, if_pos, List.length_cons]
      have harith : st.pos + 1 + (rest.takeWhile t).length =
          st.pos + ((rest.takeWhile t).length + 1) := by omega
      simp [harith]
    · simp only [Bool.not_eq_true] at htc
      simp [htc, List.takeWhile_cons]

theorem pegCharLoop_eq (input : List Char) (t : Char → Bool) (e : Expectation)
    (st : PState) :
    pegCharLoop input t e st =
      ((input.drop st.pos).takeWhile t,
        pegFail e { st with pos := st.pos + ((input.drop st.pos).takeWhile t).length }) := by
  unfold pegCharLoop
  rw [pegCharLoopGo_eq]

theorem pegParseText_eq (input : List Char) (st : PState) :
    pegParseText input st =
      ((if ((input.drop st.pos).takeWhile pegC51).isEmpty then none
        else some (String.mk ((input.drop st.pos).takeWhile pegC51))),
        pegFail expC52
          { st with pos := st.pos + ((input.drop st.pos).takeWhile pegC51).length }) := by
  unfold pegParseText
  rw [pegCharLoop_eq]
  split <;> simp_all

theorem pegParseInlineText_eq (input : List Char) (st : PState) :
    pegParseInlineText input st =
      ((if ((input.drop st.pos).takeWhile pegC49).isEmpty then none
        else some (String.mk ((input.drop st.pos).takeWhile pegC49))),
        pegFail expC50
          { st with pos := st.pos + ((input.drop st.pos).takeWhile pegC49).length }) := by
  unfold pegParseInlineText
  rw [pegCharLoop_eq]
  split <;> simp_all

theorem pegParseInlineMultilineText_eq (input : List Char) (st : PState) :
    pegParseInlineMultilineText input st =
      ((if ((input.drop st.pos).takeWhile pegC46).isEmpty then none
        else some (jsTrim (String.mk ((input.drop st.pos).takeWhile pegC46)))),
        pegFail expC47
          { st with pos := st.pos + ((input.drop st.pos).takeWhile pegC46).length }) := by
  unfold pegParseInlineMultilineText
  rw [pegCharLoop_eq]
  split <;> simp_all

theorem pegParseExpression_eq (input : List Char) (st : PState) :
    pegParseExpression input st =
      ((if ((input.drop st.pos).takeWhile pegC35).isEmpty then none
        else some (String.mk ((input.drop st.pos).takeWhile pegC35))),
        pegFail expC36
          { st with pos := st.pos + ((input.drop st.pos).takeWhile pegC35).length }) := by
  unfold pegParseExpression
  rw [pegCharLoop_eq]
  split <;> simp_all

theorem takeWhile_drop_nil {input : List Char} {p : Nat} {t : Char → Bool}
    {c : Char} (h : input.get? p = some c) (hc : t c = false) :
    (input.drop p).takeWhile t = [] := by
  rw [drop_cons_of_get? input p c h, List.takeWhile_cons, hc]
  simp

theorem pegLitChar_succeed {input : List Char} {c : Char} {st : PState}
    (e : Expectation) (h : input.get? st.pos = some c) :
    pegLitChar input c e st = (some c, { st with pos := st.pos + 1 }) := by
  unfold pegLitChar
  rw [if_pos h]

theorem pegLitChar_fail {input : List Char} {c : Char} {st : PState}
    (e : Expectation) (h : input.get? st.pos ≠ some c) :
    pegLitChar input c e st = (none, pegFail e st) := by
  unfold pegLitChar
  rw [if_neg h]

theorem get?_ne_of_ne {input : List Char} {p : Nat} {c d : Char}
    (h : input.get? p = some c) (hne : c ≠ d) : input.get? p ≠ some d := by
  rw [h]
  intro hh
  exact hne (Option.some.inj hh)

theorem pegLitStr_fail_head {input lit : List Char} {st : PState}
    {c d : Char} (e : Expectation) (h : input.get? st.pos = some c)
    (hd : lit.head? = some d) (hne : d ≠ c) :
    pegLitStr input lit e st = (none, pegFail e st) := by
  unfold pegLitStr
  rw [if_neg]
  intro heq
  match lit, hd with
  | x :: xs, hd =>
    rw [drop_cons_of_get? input st.pos c h] at heq
    simp only [List.length_cons, List.take_succ_cons] at heq
    have hx : c = x := (List.cons.injEq _ _ _ _ ▸ heq).1
    simp only [List.head?_cons, Option.some.injEq] at hd
    exact hne (hd ▸ hx.symm)

theorem pegParseType_fail {input : List Char} {st : PState} {c : Char}
    (h : input.get? st.pos = some c)
    (h1 : c ≠ 's') (h2 : c ≠ '~') (h3 : c ≠ '&') (h4 : c ≠ 'c')
    (h5 : c ≠ '!') (h6 : c ≠ 'o') :
    pegParseType input st =
      (none, pegFail expC30 (pegFail expC28 (pegFail expC25 (pegFail expC23
        (pegFail expC20 (pegFail expC18 (pegFail expC15 st))))))) := by
  have g : ∀ st' : PState, st'.pos = st.pos → input.get? st'.pos = some c :=
    fun st' hp => by rw [hp]; exact h
  have hdStop : ("stopping:".data).head? = some 's' := rfl
  have hdShuf : ("shuffle:".data).head? = some 's' := rfl
  have hdCyc : ("cycle:".data).head? = some 'c' := rfl
  have hdOnce : ("once:".data).head? = some 'o' := rfl
  have hS : pegParseStopping_Id input st = (none, pegFail expC15 st) := by
    unfold pegParseStopping_Id
    simp only [pegLitStr_fail_head expC15 h hdStop (Ne.symm h1)]
  have hSh : pegParseShuffle_Id input (pegFail expC15 st) =
      (none, pegFail expC20 (pegFail expC18 (pegFail expC15 st))) := by
    unfold pegParseShuffle_Id
    simp only [pegLitChar_fail expC18
      (get?_ne_of_ne (g (pegFail expC15 st) (pegFail_pos expC15 st)) h2)]
    simp only [pegLitStr_fail_head expC20
      (g (pegFail expC18 (pegFail expC15 st)) (by simp [pegFail_pos]))
      hdShuf (Ne.symm h1)]
  have hCy : pegParseCycle_Id input
        (pegFail expC20 (pegFail expC18 (pegFail expC15 st))) =
      (none, pegFail expC25 (pegFail expC23
        (pegFail expC20 (pegFail expC18 (pegFail expC15 st))))) := by
    unfold pegParseCycle_Id
    simp only [pegLitChar_fail expC23
      (get?_ne_of_ne (g (pegFail expC20 (pegFail expC18 (pegFail expC15 st)))
        (by simp [pegFail_pos])) h3)]
    simp only [pegLitStr_fail_head expC25
      (g (pegFail expC23 (pegFail expC20 (pegFail expC18 (pegFail expC15 st))))
        (by simp [pegFail_pos])) hdCyc (Ne.symm h4)]
  have hOn : pegParseOnce_Only_Id input
        (pegFail expC25 (pegFail expC23 (pegFail expC20
          (pegFail expC18 (pegFail expC15 st))))) =
      (none, pegFail expC30 (pegFail expC28 (pegFail expC25 (pegFail expC23
        (pegFail expC20 (pegFail expC18 (pegFail expC15 st))))))) := by
    unfold pegParseOnce_Only_Id
    simp only [pegLitChar_fail expC28
      (get?_ne_of_ne (g (pegFail expC25 (pegFail expC23 (pegFail expC20
        (pegFail expC18 (pegFail expC15 st))))) (by simp [pegFail_pos])) h5)]
    simp only [pegLitStr_fail_head expC30
      (g (pegFail expC28 (pegFail expC25 (pegFail expC23 (pegFail expC20
        (pegFail expC18 (pegFail expC15 st)))))) (by simp [pegFail_pos]))
      hdOnce (Ne.symm h6)]
  unfold pegParseType
  simp only [hS, hSh, hCy, hOn]

theorem pegParseCondition_fail {input : List Char} {st : PState}
    (h : input.get?
        (st.pos + ((input.drop st.pos).takeWhile pegC35).length) ≠ some ':') :
    ∃ st', pegParseCondition input st = (none, st') ∧ st'.pos = st.pos := by
  unfold pegParseCondition
  rw [pegParseExpression_eq]
  by_cases hrun : ((input.drop st.pos).takeWhile pegC35).isEmpty
  · rw [if_pos hrun]
    exact ⟨_, rfl, rfl⟩
  · rw [if_neg hrun]
    simp only
    rw [pegLitChar_fail expC33 (by simpa [pegFail_pos] using h)]
    exact ⟨_, rfl, rfl⟩

theorem pegParseInlineEmbed_noBrace (pe : ProcessEmbed) {input : List Char}
    (fuel : Nat) {st : PState} (h : input.get? st.pos ≠ some '\x7b') :
    pegParseInlineEmbed pe input (fuel + 1) st = some (none, pegFail expC2 st) := by
  unfold pegParseInlineEmbed pegRule
  simp only [pegLitChar_fail expC2 h]
  rw [setPos_self _ _ (pegFail_pos _ _)]

theorem pegParseMutliLineEmbed_noBrace (pe : ProcessEmbed) {input : List Char}
    (fuel : Nat) {st : PState} (h : input.get? st.pos ≠ some '\x7b') :
    pegParseMutliLineEmbed pe input (fuel + 1) st = some (none, pegFail expC2 st) := by
  unfold pegParseMutliLineEmbed pegRule
  simp only [pegLitChar_fail expC2 h]
  rw [setPos_self _ _ (pegFail_pos _ _)]

theorem pegParseEmbed_noBrace (pe : ProcessEmbed) {input : List Char}
    (fuel : Nat) {st : PState} (h : input.get? st.pos ≠ some '\x7b') :
    pegParseEmbed pe input (fuel + 2) st =
      some (none, pegFail expC2 (pegFail expC2 st)) := by
  unfold pegParseEmbed pegRule
  rw [pegParseInlineEmbed_fold, pegParseInlineEmbed_noBrace pe fuel h]
  simp only [Option.bind_eq_bind, Option.some_bind]
  rw [pegParseMutliLineEmbed_fold, pegParseMutliLineEmbed_noBrace pe fuel
    (by rw [pegFail_pos]; exact h)]

theorem pegSourceLoop_stop (pe : ProcessEmbed) {input : List Char}
    (fuel : Nat) {st : PState}
    (hT : (input.drop st.pos).takeWhile pegC51 = [])
    (hB : input.get? st.pos ≠ some '\x7b') :
    pegSourceLoop pe input (fuel + 3) st =
      some ([], pegFail expC2 (pegFail expC2 (pegFail expC52 st))) := by
  unfold pegSourceLoop pegRule
  rw [pegParseText_eq]
  simp only [hT, List.isEmpty_nil, if_pos, List.length_nil, Nat.add_zero]
  rw [setPos_self st st.pos rfl]
  rw [pegParseEmbed_fold,
    pegParseEmbed_noBrace pe fuel (by rw [pegFail_pos]; exact hB)]
  simp

theorem pegInlineAlt_stop (pe : ProcessEmbed) {input : List Char}
    (fuel : Nat) {st : PState}
    (hT : (input.drop st.pos).takeWhile pegC49 = [])
    (hB : input.get? st.pos ≠ some '\x7b') :
    pegInlineAlt pe input (fuel + 3) st =
      some (none, pegFail expC2 (pegFail expC2 (pegFail expC50 st))) := by
  unfold pegInlineAlt pegRule
  rw [pegParseInlineText_eq]
  simp only [hT, List.isEmpty_nil, if_pos, List.length_nil, Nat.add_zero]
  rw [setPos_self st st.pos rfl]
  rw [pegParseEmbed_fold]
  exact pegParseEmbed_noBrace pe fuel (by rw [pegFail_pos]; exact hB)

theorem pegInlineSourceLoop_stop (pe : ProcessEmbed) {input : List Char}
    (fuel : Nat) {st : PState}
    (hT : (input.drop st.pos).takeWhile pegC49 = [])
    (hB : input.get? st.pos ≠ some '\x7b') :
    pegInlineSourceLoop pe input (fuel + 4) st =
      some ([], pegFail expC2 (pegFail expC2 (pegFail expC50 st))) := by
  unfold pegInlineSourceLoop pegRule
  rw [pegInlineAlt_fold, pegInlineAlt_stop pe fuel hT hB]
  simp

theorem pegArgumentsLoop_stop (pe : ProcessEmbed) {input : List Char}
    (fuel : Nat) {st : PState} (h : input.get? st.pos ≠ some '|') :
    pegArgumentsLoop pe input (fuel + 1) st = some ([], pegFail expC40 st) := by
  unfold pegArgumentsLoop pegRule
  simp only [pegLitChar_fail expC40 h]
  rw [setPos_self _ _ (pegFail_pos _ _)]

theorem String_join_singleton (s : String) : String.join [s] = s := by
  cases s
  rfl

theorem pegSourceLoop_all (pe : ProcessEmbed) {input : List Char} (fuel : Nat)
    (hne : input ≠ []) (hall : input.takeWhile pegC51 = input) :
    pegSourceLoop pe input (fuel + 4) (⟨0, 0, []⟩ : PState) =
      some ([String.mk input],
        pegFail expC2 (pegFail expC2 (pegFail expC52
          (pegFail expC52 (⟨input.length, 0, []⟩ : PState))))) := by
  have hie : input.isEmpty = false := by
    cases input
    · exact absurd rfl hne
    · rfl
  unfold pegSourceLoop pegRule
  rw [pegParseText_eq]
  simp only [List.drop_zero, hall, hie, Nat.zero_add, Bool.false_eq_true,
    if_false]
  rw [pegSourceLoop_fold, pegSourceLoop_stop pe fuel
    (by rw [pegFail_pos]; simp)
    (by rw [pegFail_pos]; simp [List.get?_eq_none])]
  simp

/-- C1: for every input string containing no brace characters, the root
`Source` rule parses the whole input and returns it unchanged. -/
theorem braceless_source_roundtrip (pe : ProcessEmbed) (s : String)
    (h : ∀ c ∈ s.data, c ≠ '\x7b' ∧ c ≠ '\x7d') :
    pegParseRun pe s.data = some (Except.ok s) := by
  obtain ⟨l⟩ := s
  have hall : ∀ x ∈ l, pegC51 x = true := by
    intro x hx
    have hh := h x hx
    unfold pegC51
    have e1 : (x == '\x7b') = false := by simpa using hh.1
    have e2 : (x == '\x7d') = false := by simpa using hh.2
    rw [e1, e2]
    rfl
  have htw : l.takeWhile pegC51 = l := List.takeWhile_eq_self_iff.mpr hall
  by_cases hl : l = []
  · subst hl
    rfl
  · unfold pegParseRun
    rw [show pegFuel l = ((8 * l.length + 11) + 4) + 1 from by
      unfold pegFuel; omega]
    unfold pegParseSource pegRule
    rw [pegSourceLoop_fold, pegSourceLoop_all pe (8 * l.length + 11) hl htw]
    simp [pegFail_pos, String_join_singleton]

/-! ## Map lemmas for the localization model -/

theorem mapGet_mapSet_self {α : Type} (m : List (String × α)) (k : String)
    (v : α) : mapGet (mapSet m k v) k = some v := by
  induction m with
  | nil => simp [mapSet, mapGet]
  | cons p rest ih =>
    unfold mapSet
    by_cases hp : p.1 == k
    · simp [hp, mapGet]
    · simp only [hp, Bool.false_eq_true, if_false]
      unfold mapGet
      simp [hp, ih]

theorem mapGet_mapSet_other {α : Type} (m : List (String × α))
    (k k' : String) (v : α) (h : k' ≠ k) :
    mapGet (mapSet m k v) k' = mapGet m k' := by
  induction m with
  | nil =>
    simp only [mapSet, mapGet]
    rw [if_neg (by simp; exact fun hh => h hh.symm)]
  | cons p rest ih =>
    unfold mapSet
    by_cases hp : p.1 == k
    · unfold mapGet
      have hpk : p.1 = k := by simpa using hp
      have : (k == k') = false := by
        simp
        exact fun hh => h hh.symm
      simp [this, hpk]
    · simp only [hp, Bool.false_eq_true, if_false]
      unfold mapGet
      simp [ih]

/-! ## Claim theorems -/

/-- C3: `peg$fail` keeps only the furthest failure position — a failure
before the current maximum is ignored, a failure beyond it resets the
expectation set, a failure at it accumulates — and parsing the
malformed input `"{stopping: A|B"` (missing `}`) raises the structured
error at end-of-input (offset 14 = the input length), carrying the
expectations recorded at that furthest position. -/
theorem furthest_failure_reporting :
    (∀ (e : Expectation) (st : PState),
      ((pegFail e st).maxFailPos = max st.maxFailPos st.pos) ∧
      (st.pos < st.maxFailPos → pegFail e st = st) ∧
      (st.maxFailPos < st.pos → (pegFail e st).maxFailExpected = [e]) ∧
      (st.maxFailPos = st.pos →
        (pegFail e st).maxFailExpected = st.maxFailExpected ++ [e])) ∧
    (∀ pe : ProcessEmbed,
      pegParseRun pe "\x7bstopping: A|B".data =
        some (Except.error
          { expected := [expC50, expC50, expC2, expC2, expC40, expC4]
            found := none
            location :=
              { start := { offset := 14, line := 1, column := 15 }
                stop := { offset := 14, line := 1, column := 15 } } })) ∧
    "\x7bstopping: A|B".data.length = 14 := by
  refine ⟨?_, ?_, by decide⟩
  · intro e st
    unfold pegFail
    refine ⟨?_, ?_, ?_, ?_⟩
    · split
      · simp; omega
      · split <;> simp <;> omega
    · intro hlt
      rw [if_pos hlt]
    · intro hlt
      rw [if_neg (by omega), if_pos hlt]
    · intro heqp
      rw [if_neg (by omega), if_neg (by omega)]
  · intro pe
    rfl

theorem furthest_failure_reporting_witness :
    pegFail Expectation.anyE ⟨3, 5, [Expectation.endE]⟩ =
      ⟨3, 5, [Expectation.endE]⟩ :=
  (furthest_failure_reporting.1 Expectation.anyE
    ⟨3, 5, [Expectation.endE]⟩).2.1 (by decide)

/-- C4 counterexample: the multi-line text class `peg$c46 = [^{}-]`
allows the pipe and the newline, so an inline-argument exclusion does
not carry over to multi-line arguments: `InlineMultilineText` happily
consumes `"a|b"` in one fragment. -/
theorem multiline_text_class_allows_pipe :
    pegC46 '|' = true ∧ pegC46 '\n' = true ∧
    (pegParseInlineMultilineText "a|b".data ⟨0, 0, []⟩).1 = some "a|b" := by
  refine ⟨by decide, by decide, ?_⟩
  rw [pegParseInlineMultilineText_eq]
  decide

/-- C4 (amended): the text classes by context — top-level `Text`
excludes exactly the braces; inline argument text excludes braces, the
pipe and the CR/LF line-break characters; multi-line argument text
excludes exactly the braces and the dash (pipe and line breaks remain
allowed).  Each text rule consumes precisely the maximal run of its
class from the current position. -/
theorem text_char_classes :
    (∀ c : Char, pegC51 c = true ↔ (c ≠ '\x7b' ∧ c ≠ '\x7d')) ∧
    (∀ c : Char, pegC49 c = true ↔
      (c ≠ '\x7b' ∧ c ≠ '\x7d' ∧ c ≠ '|' ∧ c ≠ '\r' ∧ c ≠ '\n')) ∧
    (∀ c : Char, pegC46 c = true ↔ (c ≠ '\x7b' ∧ c ≠ '\x7d' ∧ c ≠ '-')) ∧
    (∀ (input : List Char) (st : PState),
      (pegParseText input st).1 =
        if ((input.drop st.pos).takeWhile pegC51).isEmpty then none
        else some (String.mk ((input.drop st.pos).takeWhile pegC51))) ∧
    (∀ (input : List Char) (st : PState),
      (pegParseInlineText input st).1 =
        if ((input.drop st.pos).takeWhile pegC49).isEmpty then none
        else some (String.mk ((input.drop st.pos).takeWhile pegC49))) ∧
    (∀ (input : List Char) (st : PState),
      (pegParseInlineMultilineText input st).1 =
        if ((input.drop st.pos).takeWhile pegC46).isEmpty then none
        else some (jsTrim (String.mk ((input.drop st.pos).takeWhile pegC46)))) := by
  refine ⟨?_, ?_, ?_, ?_, ?_, ?_⟩
  · intro c
    unfold pegC51
    constructor
    · intro hb
      simp only [Bool.not_eq_true', Bool.or_eq_false_iff, beq_eq_false_iff_ne] at hb
      exact hb
    · intro hb
      simp only [Bool.not_eq_true', Bool.or_eq_false_iff, beq_eq_false_iff_ne]
      exact hb
  · intro c
    unfold pegC49
    constructor
    · intro hb
      simp only [Bool.not_eq_true', Bool.or_eq_false_iff, beq_eq_false_iff_ne] at hb
      exact ⟨hb.1.1.1.1, hb.1.1.1.2, hb.1.1.2, hb.1.2, hb.2⟩
    · intro hb
      simp only [Bool.not_eq_true', Bool.or_eq_false_iff, beq_eq_false_iff_ne]
      exact ⟨⟨⟨⟨hb.1, hb.2.1⟩, hb.2.2.1⟩, hb.2.2.2.1⟩, hb.2.2.2.2⟩
  · intro c
    unfold pegC46
    constructor
    · intro hb
      simp only [Bool.not_eq_true', Bool.or_eq_false_iff, beq_eq_false_iff_ne] at hb
      exact ⟨hb.1.1, hb.1.2, hb.2⟩
    · intro hb
      simp only [Bool.not_eq_true', Bool.or_eq_false_iff, beq_eq_false_iff_ne]
      exact ⟨⟨hb.1, hb.2.1⟩, hb.2.2⟩
  · intro input st
    rw [pegParseText_eq]
  · intro input st
    rw [pegParseInlineText_eq]
  · intro input st
    rw [pegParseInlineMultilineText_eq]

/-- C5 counterexample: in an inline directive, `Condition` is tried
before `Type`, and `word:` always satisfies `Condition`; parsing
`"{stopping: A|B}"` therefore hands `processEmbed` the condition header
with guard expression `"stopping"` — not a `SequenceType.Stopping` type
marker. -/
theorem inline_textual_marker_parsed_as_condition :
    pegParseRun peProbe "\x7bstopping: A|B\x7d".data =
      some (Except.ok "COND(stopping)") := by
  decide

/-- C5 (amended): the symbol markers `~`, `&`, `!` of an inline
directive are recognized by `Type` as Shuffle/Cycle/OnceOnly; the
textual markers (`stopping:`, `shuffle:`, …) are captured by
`Condition` as a guard expression in the inline form, because
`Condition` is tried first and always matches `word:`; `Type` itself
does recognize every marker, and is consulted directly (so the textual
markers work) in the multi-line form. -/
theorem type_marker_recognition :
    pegParseRun peProbe "\x7b~A|B\x7d".data =
      some (Except.ok "SEQ(Shuffle)") ∧
    pegParseRun peProbe "\x7b&A|B\x7d".data =
      some (Except.ok "SEQ(Cycle)") ∧
    pegParseRun peProbe "\x7b!A|B\x7d".data =
      some (Except.ok "SEQ(OnlyOnce)") ∧
    pegParseRun peProbe "\x7bstopping:\n- A\n- B\n\x7d".data =
      some (Except.ok "SEQ(Stopping)") ∧
    pegParseRun peProbe "\x7bshuffle: A|B\x7d".data =
      some (Except.ok "COND(shuffle)") ∧
    (pegParseType "stopping: A".data ⟨0, 0, []⟩).1 =
      some SequenceType.Stopping ∧
    (pegParseType "~A".data ⟨0, 0, []⟩).1 = some SequenceType.Shuffle ∧
    (pegParseType "cycle: A".data ⟨0, 0, []⟩).1 = some SequenceType.Cycle ∧
    (pegParseType "once: A".data ⟨0, 0, []⟩).1 = some SequenceType.OnlyOnce := by
  refine ⟨by decide, by decide, by decide, by decide, by decide,
    by decide, by decide, by decide, by decide⟩

/-- C6: `InlineMultilineText` (multi-line branch content) applies
JavaScript `trim()` to the matched run before producing its fragment,
while `Text` and `InlineText` pass the matched run through verbatim;
`" A "` becomes `"A"` only in the multi-line rule. -/
theorem multiline_trim_inline_verbatim :
    (∀ (input : List Char) (st : PState),
      (pegParseInlineMultilineText input st).1 =
        if ((input.drop st.pos).takeWhile pegC46).isEmpty then none
        else some (jsTrim (String.mk ((input.drop st.pos).takeWhile pegC46)))) ∧
    (∀ (input : List Char) (st : PState),
      (pegParseText input st).1 =
        if ((input.drop st.pos).takeWhile pegC51).isEmpty then none
        else some (String.mk ((input.drop st.pos).takeWhile pegC51))) ∧
    (∀ (input : List Char) (st : PState),
      (pegParseInlineText input st).1 =
        if ((input.drop st.pos).takeWhile pegC49).isEmpty then none
        else some (String.mk ((input.drop st.pos).takeWhile pegC49))) ∧
    (pegParseInlineMultilineText " A ".data ⟨0, 0, []⟩).1 = some "A" ∧
    (pegParseInlineText " A ".data ⟨0, 0, []⟩).1 = some " A " ∧
    (pegParseText " A ".data ⟨0, 0, []⟩).1 = some " A " := by
  refine ⟨?_, ?_, ?_, ?_, ?_, ?_⟩
  · intro input st
    rw [pegParseInlineMultilineText_eq]
  · intro input st
    rw [pegParseText_eq]
  · intro input st
    rw [pegParseInlineText_eq]
  · rw [pegParseInlineMultilineText_eq]
    decide
  · rw [pegParseInlineText_eq]
    decide
  · rw [pegParseText_eq]
    decide

/-- C7: parsing is a pure function of the input (and of the
`processEmbed` collaborator, which receives the identity-naming
options): the generated parser keeps every mutable variable — position,
failure data, the `peg$posDetailsCache` — local to one `peg$parse`
call, and derives `location()` spans only from positions in the input,
so re-parsing identical source yields identical results, spans
included. -/
theorem parse_deterministic (pe : ProcessEmbed) (input : List Char) :
    pegParseRun pe input = pegParseRun pe input ∧
    pegComputeLocation input = pegComputeLocation input :=
  ⟨rfl, rfl⟩

/-- C2: a List-directive round whose eligible set is empty (every guard
false) outputs the empty string and leaves the persisted state — the
counter and, for Shuffle, order and cursor — exactly unchanged, for
every sequence type; two consecutive such rounds therefore both output
`""` from the same state. -/
theorem list_round_empty_frame (t : SequenceType) (branches : List String)
    (guards : List Bool) (genOrder : List Nat → Option Nat → List Nat)
    (st : SequenceState)
    (h : ∀ i, i < branches.length → guards.getD i true = false) :
    listRound t branches guards genOrder st = ("", st) ∧
    listRound t branches guards genOrder
      (listRound t branches guards genOrder st).2 = ("", st) := by
  have hIdx : eligibleIdxList branches.length guards = [] := by
    unfold eligibleIdxList
    rw [List.filter_eq_nil_iff]
    intro i hi
    rw [h i (List.mem_range.mp hi)]
    simp
  have h1 : listRound t branches guards genOrder st = ("", st) := by
    unfold listRound
    rw [hIdx]
    simp
  refine ⟨h1, ?_⟩
  rw [h1]
  exact h1

theorem list_round_empty_frame_witness :
    listRound SequenceType.Shuffle ["A", "B"] [false, false]
      (fun l _ => l) ⟨2, [1, 0], 1⟩ = ("", ⟨2, [1, 0], 1⟩) :=
  (list_round_empty_frame SequenceType.Shuffle ["A", "B"] [false, false]
    (fun l _ => l) ⟨2, [1, 0], 1⟩ (by decide)).1

/-- C9: `Localization.load` adopts the loaded language as active only
when no active language is set, keeps the previously active language
otherwise, stores (replacing any previous table) the key-to-string map
built from `data` under the loaded language, and leaves every other
language's table untouched. -/
theorem load_active_and_table (l : Localization) (language : String)
    (data : List (String × String)) :
    (l.activeLanguage = none →
      (l.load language data).activeLanguage = some language) ∧
    (∀ a, l.activeLanguage = some a →
      (l.load language data).activeLanguage = some a) ∧
    mapGet (l.load language data).languages language =
      some (buildLangMap data) ∧
    (∀ k, k ≠ language →
      mapGet (l.load language data).languages k = mapGet l.languages k) := by
  refine ⟨?_, ?_, ?_, ?_⟩
  · intro hnone
    unfold Localization.load
    rw [hnone]
  · intro a ha
    unfold Localization.load
    rw [ha]
  · unfold Localization.load
    exact mapGet_mapSet_self _ _ _
  · intro k hk
    unfold Localization.load
    exact mapGet_mapSet_other _ _ _ _ hk

theorem load_active_and_table_witness :
    (Localization.load ⟨[], none⟩ "en" [("k1", "v1")]).activeLanguage =
      some "en" :=
  (load_active_and_table ⟨[], none⟩ "en" [("k1", "v1")]).1 rfl

/-- C10 counterexample: `Localization.get` applies a JavaScript
falsiness test (`if (!lang) return undefined`) to the selected
language, so the empty-string language name — although a loadable
language whose table contains the id — makes `get` return `undefined`
instead of the loaded string. -/
theorem get_empty_language_name :
    (Localization.load ⟨[], none⟩ "" [("id1", "hello")]).get "id1" (some "") =
      none ∧
    mapGet (Localization.load ⟨[], none⟩ "" [("id1", "hello")]).languages "" =
      some [("id1", "hello")] := by
  refine ⟨by decide, by decide⟩

/-- C10 (amended): `Localization.get` is total in the embedding and
returns `none` exactly when the effective language
(`language ?? activeLanguage`) is absent, is the empty string (the
falsiness test), or names an unloaded language; with a loaded,
non-empty effective language it returns that table's entry for the id
(`none` when the id is absent). -/
theorem get_characterization (l : Localization) (id : String)
    (language : Option String) :
    (effectiveLanguage l language = none → l.get id language = none) ∧
    (effectiveLanguage l language = some "" → l.get id language = none) ∧
    (∀ s, effectiveLanguage l language = some s → s ≠ "" →
      mapGet l.languages s = none → l.get id language = none) ∧
    (∀ s table, effectiveLanguage l language = some s → s ≠ "" →
      mapGet l.languages s = some table →
      l.get id language = mapGet table id) := by
  unfold Localization.get effectiveLanguage
  refine ⟨?_, ?_, ?_, ?_⟩
  · intro hnone
    rw [hnone]
  · intro hempty
    rw [hempty]
    simp
  · intro s hs hne htab
    rw [hs]
    simp only [if_neg hne]
    rw [htab]
  · intro s table hs hne htab
    rw [hs]
    simp only [if_neg hne]
    rw [htab]

theorem get_characterization_witness :
    Localization.get ⟨[("en", [("id1", "x")])], some "en"⟩ "id1" none =
      some "x" :=
  ((get_characterization ⟨[("en", [("id1", "x")])], some "en"⟩ "id1"
      none).2.2.2 "en" [("id1", "x")] rfl (by decide) (by decide)).trans
    (by decide)

/-! ## Nesting-depth analysis (C8) -/

theorem takeWhile_replicate_nil {t : Char → Bool} {c : Char} (n : Nat)
    (h : t c = false) : (List.replicate n c).takeWhile t = [] := by
  cases n with
  | zero => rfl
  | succ n => simp [List.replicate_succ, List.takeWhile_cons, h]

theorem nestBraces_closed (a : Nat) :
    nestBraces a =
      List.replicate a '\x7b' ++ 'A' :: List.replicate a '\x7d' := by
  induction a with
  | zero => rfl
  | succ a ih =>
    unfold nestBraces
    rw [ih]
    simp only [List.replicate_succ, List.cons_append, List.append_assoc,
      List.singleton_append, List.cons.injEq, true_and]
    rw [← List.replicate_succ', List.replicate_succ]

theorem nestBraces_length (a : Nat) : (nestBraces a).length = 2 * a + 1 := by
  rw [nestBraces_closed]
  simp
  omega

theorem nestBraces_get (a i : Nat) :
    (nestBraces a).get? i =
      if i < a then some '\x7b'
      else if i = a then some 'A'
      else if i ≤ 2 * a then some '\x7d'
      else none := by
  rw [List.get?_eq_getElem?, nestBraces_closed]
  by_cases h1 : i < a
  · rw [List.getElem?_append_left (by simpa using h1)]
    simp [List.getElem?_replicate, h1]
  · rw [List.getElem?_append_right (by simpa using Nat.le_of_not_lt h1)]
    simp only [List.length_replicate]
    by_cases h2 : i = a
    · subst h2
      simp [h1]
    · have hgt : a < i := by omega
      have hia : i - a = (i - a - 1) + 1 := by omega
      rw [hia]
      simp only [List.getElem?_cons_succ]
      rw [List.getElem?_replicate]
      by_cases h3 : i ≤ 2 * a
      · rw [if_pos (by omega)]
        simp [h1, h2, h3]
      · rw [if_neg (by omega)]
        simp [h1, h2, h3]

theorem nestBraces_drop_mid (a : Nat) :
    (nestBraces a).drop a = 'A' :: List.replicate a '\x7d' := by
  rw [nestBraces_closed]
  have := List.drop_left (List.replicate a '\x7b')
    ('A' :: List.replicate a '\x7d')
  simpa using this

theorem nestBraces_tw_c35 (a : Nat) :
    ((nestBraces a).drop a).takeWhile pegC35 = ['A'] := by
  rw [nestBraces_drop_mid]
  rw [List.takeWhile_cons]
  rw [show pegC35 'A' = true from by decide]
  simp [takeWhile_replicate_nil a (show pegC35 '\x7d' = false from by decide)]

theorem nestBraces_tw_c49 (a : Nat) :
    ((nestBraces a).drop a).takeWhile pegC49 = ['A'] := by
  rw [nestBraces_drop_mid]
  rw [List.takeWhile_cons]
  rw [show pegC49 'A' = true from by decide]
  simp [takeWhile_replicate_nil a (show pegC49 '\x7d' = false from by decide)]

theorem inlineAlt_at_A (a : Nat) (fuel : Nat) (st : PState)
    (hpos : st.pos = a) :
    ∃ st', pegInlineAlt peConst (nestBraces a) (fuel + 1) st =
      some (some "A", st') ∧ st'.pos = a + 1 := by
  unfold pegInlineAlt pegRule
  rw [pegParseInlineText_eq]
  simp only [hpos, nestBraces_tw_c49, List.isEmpty_cons, Bool.false_eq_true,
    if_false, List.length_cons, List.length_nil]
  exact ⟨_, rfl, by simp [pegFail_pos]⟩

theorem args_after_alt (pe : ProcessEmbed) {input : List Char} (w : Nat)
    (st stA : PState) (s : String)
    (hAlt : pegInlineAlt pe input (w + 4) st = some (some s, stA))
    (hT : (input.drop stA.pos).takeWhile pegC49 = [])
    (hB : input.get? stA.pos ≠ some '\x7b')
    (hP : input.get? stA.pos ≠ some '|') :
    ∃ (argl : List Argument) (st' : PState),
      pegParseArguments pe input (w + 7) st = some (some argl, st') ∧
      st'.pos = stA.pos := by
  have hIS : pegParseInlineSource pe input (w + 5) st =
      some (some s, pegFail expC2 (pegFail expC2 (pegFail expC50 stA))) := by
    unfold pegParseInlineSource pegRule
    rw [pegInlineAlt_fold, hAlt]
    simp only [Option.bind_eq_bind, Option.some_bind]
    rw [pegInlineSourceLoop_fold, pegInlineSourceLoop_stop pe w hT hB]
    simp [String_join_singleton]
  have hArg : ∃ rec stB, pegParseArgument pe input (w + 6) st =
      some (some rec, stB) ∧ stB.pos = stA.pos := by
    unfold pegParseArgument pegRule
    rw [pegParseInlineSource_fold, hIS]
    simp only [Option.bind_eq_bind, Option.some_bind]
    exact ⟨_, _, rfl, by simp [pegFail_pos]⟩
  obtain ⟨rec, stB, hArg, hBpos⟩ := hArg
  unfold pegParseArguments pegRule
  rw [pegParseArgument_fold, hArg]
  simp only [Option.bind_eq_bind, Option.some_bind]
  rw [pegArgumentsLoop_fold, pegArgumentsLoop_stop pe (w + 5)
    (by rw [hBpos]; exact hP)]
  refine ⟨[rec], pegFail expC40 stB, ?_, ?_⟩
  · simp
  · simp [pegFail_pos, hBpos]

theorem inlineEmbed_nest_core (a k x : Nat) (hk1 : k + 1 ≤ a)
    (c : Char) (sv : String)
    (hgc : (nestBraces a).get? (a - k) = some c)
    (hc1 : c ≠ 's') (hc2 : c ≠ '~') (hc3 : c ≠ '&') (hc4 : c ≠ 'c')
    (hc5 : c ≠ '!') (hc6 : c ≠ 'o')
    (hcf : (nestBraces a).get?
      ((a - k) + (((nestBraces a).drop (a - k)).takeWhile pegC35).length) ≠
        some ':')
    (hAlt : ∀ st2 : PState, st2.pos = a - k →
      ∃ stA, pegInlineAlt peConst (nestBraces a) (x + 4) st2 =
        some (some sv, stA) ∧ stA.pos = a + k + 1) :
    ∀ st : PState, st.pos = a - (k + 1) →
      ∃ st', pegParseInlineEmbed peConst (nestBraces a) (x + 8) st =
        some (some "E", st') ∧ st'.pos = a + (k + 1) + 1 := by
  intro st hpos
  have hpos1 : st.pos + 1 = a - k := by omega
  have hg0 : (nestBraces a).get? st.pos = some '\x7b' := by
    rw [hpos, nestBraces_get, if_pos (by omega)]
  have hrb : (a + k + 1 ≤ 2 * a) ∧ ¬(a + k + 1 < a) ∧ ¬(a + k + 1 = a) := by
    omega
  have hgrb : (nestBraces a).get? (a + k + 1) = some '\x7d' := by
    rw [nestBraces_get, if_neg hrb.2.1, if_neg hrb.2.2, if_pos hrb.1]
  unfold pegParseInlineEmbed pegRule
  rw [pegLitChar_succeed expC2 hg0]
  simp only
  obtain ⟨stc, hcond, hcpos⟩ :=
    @pegParseCondition_fail (nestBraces a) { st with pos := st.pos + 1 }
      (by
        simp only [hpos1]
        exact hcf)
  rw [hcond]
  simp only
  have hgc' : (nestBraces a).get? stc.pos = some c := by
    rw [hcpos]
    simp only [hpos1]
    exact hgc
  rw [pegParseType_fail hgc' hc1 hc2 hc3 hc4 hc5 hc6]
  simp only
  obtain ⟨stA, hAltEq, hApos⟩ :=
    hAlt (pegFail expC30 (pegFail expC28 (pegFail expC25 (pegFail expC23
      (pegFail expC20 (pegFail expC18 (pegFail expC15 stc)))))))
      (by simp only [pegFail_pos]; rw [hcpos]; exact hpos1)
  obtain ⟨argl, stArgs, hArgs, hArgsPos⟩ :=
    args_after_alt peConst x _ stA sv hAltEq
      (takeWhile_drop_nil (c := '\x7d') (by rw [hApos]; exact hgrb)
        (by decide))
      (by rw [hApos]; exact get?_ne_of_ne hgrb (by decide))
      (by rw [hApos]; exact get?_ne_of_ne hgrb (by decide))
  rw [pegParseArguments_fold, hArgs]
  simp only [Option.bind_eq_bind, Option.some_bind]
  rw [pegLitChar_succeed expC4 (by rw [hArgsPos, hApos]; exact hgrb)]
  refine ⟨_, rfl, ?_⟩
  simp only
  rw [hArgsPos, hApos]
  omega

theorem pegParseEmbed_nest (a : Nat) :
    ∀ k, 1 ≤ k → k ≤ a → ∀ fuel, 8 * k + 8 ≤ fuel → ∀ st : PState,
      st.pos = a - k →
      ∃ st' : PState, pegParseEmbed peConst (nestBraces a) fuel st =
        some (some "E", st') ∧ st'.pos = a + k + 1 := by
  intro k
  induction k with
  | zero => intro h; exact absurd h (by omega)
  | succ k ih =>
    intro _ hka fuel hfuel st hpos
    obtain ⟨x, rfl⟩ : ∃ x, fuel = x + 9 := ⟨fuel - 9, by omega⟩
    have hx5 : 8 * k + 5 ≤ x := by omega
    have hIE : ∀ st0 : PState, st0.pos = a - (k + 1) →
        ∃ st', pegParseInlineEmbed peConst (nestBraces a) (x + 8) st0 =
          some (some "E", st') ∧ st'.pos = a + (k + 1) + 1 := by
      rcases Nat.eq_zero_or_pos k with rfl | hk1
      · -- base: the innermost directive is `{A}`
        refine inlineEmbed_nest_core a 0 x hka 'A' "A" ?_
          (by decide) (by decide) (by decide) (by decide) (by decide)
          (by decide) ?_ ?_
        · rw [Nat.sub_zero, nestBraces_get]
          rw [if_neg (by omega), if_pos rfl]
        · rw [Nat.sub_zero, nestBraces_tw_c35]
          have hval : (nestBraces a).get? (a + 1) = some '\x7d' := by
            rw [nestBraces_get]
            rw [if_neg (by omega), if_neg (by omega), if_pos (by omega)]
          rw [show a + (['A'] : List Char).length = a + 1 from by simp]
          exact get?_ne_of_ne hval (by decide)
        · intro st2 h2
          obtain ⟨st', h1, h2'⟩ := inlineAlt_at_A a (x + 3) st2
            (by rw [h2, Nat.sub_zero])
          exact ⟨st', h1, by rw [h2']⟩
      · -- step: the inner content is itself a directive
        have hglb : (nestBraces a).get? (a - k) = some '\x7b' := by
          rw [nestBraces_get, if_pos (by omega)]
        refine inlineEmbed_nest_core a k x hka '\x7b' "E" hglb
          (by decide) (by decide) (by decide) (by decide) (by decide)
          (by decide) ?_ ?_
        · rw [takeWhile_drop_nil hglb (by decide)]
          simp only [List.length_nil, Nat.add_zero]
          exact get?_ne_of_ne hglb (by decide)
        · intro st2 h2
          unfold pegInlineAlt pegRule
          rw [pegParseInlineText_eq]
          rw [takeWhile_drop_nil (p := st2.pos) (by rw [h2]; exact hglb)
            (by decide)]
          simp only [List.isEmpty_nil, if_pos, List.length_nil, Nat.add_zero]
          rw [setPos_self st2 st2.pos rfl]
          rw [pegParseEmbed_fold]
          obtain ⟨stE, hE, hEpos⟩ := ih hk1 (by omega) (x + 3) (by omega)
            (pegFail expC50 st2) (by rw [pegFail_pos]; exact h2)
          exact ⟨stE, hE, hEpos⟩
    obtain ⟨st', hEq, hPos⟩ := hIE st hpos
    unfold pegParseEmbed pegRule
    rw [pegParseInlineEmbed_fold, hEq]
    exact ⟨st', by simp, hPos⟩

/-- C8 (amended): the parser has no nesting-depth maximum — for every
depth `a ≥ 1`, the input `{`⋯`{A}`⋯`}` with `a` nested directives parses
successfully (no `SyntaxError`); recursion is bounded only by the host's
call stack, not by any explicit configurable limit. -/
theorem nesting_unbounded (a : Nat) (ha : 1 ≤ a) :
    pegParseRun peConst (nestBraces a) = some (Except.ok "E") := by
  have hlen := nestBraces_length a
  have hg0 : (nestBraces a).get? 0 = some '\x7b' := by
    rw [nestBraces_get, if_pos (by omega)]
  have hText0 : ∀ st : PState, st.pos = 0 →
      pegParseText (nestBraces a) st = (none, pegFail expC52 st) := by
    intro st hp
    rw [pegParseText_eq]
    rw [takeWhile_drop_nil (by rw [hp]; exact hg0) (by decide)]
    simp
  obtain ⟨stE, hE, hEpos⟩ := pegParseEmbed_nest a a ha le_rfl (16 * a + 22)
    (by omega) (pegFail expC52 ⟨0, 0, []⟩)
    (by rw [pegFail_pos]; show 0 = a - a; omega)
  have hgend : (nestBraces a).get? stE.pos = none := by
    rw [hEpos, nestBraces_get]
    rw [if_neg (by omega), if_neg (by omega), if_neg (by omega)]
  have hstop := @pegSourceLoop_stop peConst (nestBraces a)
    (16 * a + 19) stE
    (by rw [drop_nil_of_get?_none hgend]; rfl)
    (by rw [hgend]; exact fun hh => Option.noConfusion hh)
  have hLoop : pegSourceLoop peConst (nestBraces a) (16 * a + 23)
      (⟨0, 0, []⟩ : PState) =
      some (["E"], pegFail expC2 (pegFail expC2 (pegFail expC52 stE))) := by
    unfold pegSourceLoop pegRule
    rw [hText0 ⟨0, 0, []⟩ rfl]
    simp only
    rw [pegParseEmbed_fold, hE]
    simp only [Option.bind_eq_bind, Option.some_bind]
    rw [pegSourceLoop_fold]
    rw [show (16 : Nat) * a + 22 = (16 * a + 19) + 3 from by omega] at hstop ⊢
    rw [hstop]
    simp
  unfold pegParseRun
  rw [show pegFuel (nestBraces a) = (16 * a + 23) + 1 from by
    unfold pegFuel; rw [hlen]; omega]
  unfold pegParseSource pegRule
  rw [pegSourceLoop_fold, hLoop]
  simp only [Option.bind_eq_bind, Option.some_bind]
  rw [if_pos (by simp [pegFail_pos]; omega)]
  rw [String_join_singleton]

theorem nesting_unbounded_witness :
    (1 ≤ 65) ∧ pegParseRun peConst (nestBraces 65) = some (Except.ok "E") :=
  ⟨by decide, nesting_unbounded 65 (by decide)⟩

set_option maxRecDepth 100000 in
/-- C8 counterexample: directives nested 100 levels deep — far beyond
the claimed configurable maximum (the spec's example limit is 64) —
parse successfully; no `SyntaxError` is raised, because the generated
parser contains no depth check at all. -/
theorem nesting_depth_100_parses :
    pegParseRun peConst (nestBraces 100) = some (Except.ok "E") := by
  decide

theorem braceless_source_roundtrip_witness :
    (∀ c ∈ "hello world".data, c ≠ '\x7b' ∧ c ≠ '\x7d') ∧
    pegParseRun peConst "hello world".data =
      some (Except.ok "hello world") :=
  ⟨by decide, braceless_source_roundtrip peConst "hello world" (by decide)⟩

end ArticyNode
